import Mathlib

/-!
Verification of the peersignal-server room registry, code normalization and
rate limiter.  The definitions below are shallow embeddings of the JavaScript
source files: rooms.js (createRoom, joinRoom, approvePeer, signal,
handleDisconnect, rejoinRoom), codes.js (normalizeCode), rate-limit.js
(RateLimiter.isAllowed) and the disconnect handler of index.js (per-IP room
counter).  JavaScript Map objects are modelled as association lists with
insertion-order update semantics, socket side effects (emit, join, leave) as
an explicit effect list, and Date.now timestamps as natural numbers.
-/

namespace PeerSignal

/-- Lookup in an association list, first binding wins (JavaScript Map.get). -/
def lookupA {α : Type} (k : String) : List (String × α) → Option α
  | [] => none
  | kv :: t => if kv.1 = k then some kv.2 else lookupA k t

/-- Insert or update a binding in place (JavaScript Map.set keeps the slot of
an existing key and appends a new key at the end). -/
def setA {α : Type} (k : String) (v : α) : List (String × α) → List (String × α)
  | [] => [(k, v)]
  | kv :: t => if kv.1 = k then (k, v) :: t else kv :: setA k v t

/-- Remove a binding (JavaScript Map.delete). -/
def delA {α : Type} (k : String) : List (String × α) → List (String × α)
  | [] => []
  | kv :: t => if kv.1 = k then delA k t else kv :: delA k t

theorem lookupA_setA_self {α : Type} (k : String) (v : α) (m : List (String × α)) :
    lookupA k (setA k v m) = some v := by
  induction m with
  | nil => simp [lookupA, setA]
  | cons kv t ih =>
    by_cases h : kv.1 = k
    · simp [setA, h, lookupA]
    · simp [setA, h, lookupA, ih]

theorem lookupA_setA_ne {α : Type} {k j : String} (v : α) (m : List (String × α))
    (h : j ≠ k) : lookupA j (setA k v m) = lookupA j m := by
  induction m with
  | nil => simp [lookupA, setA, Ne.symm h]
  | cons kv t ih =>
    by_cases hk : kv.1 = k
    · simp [setA, hk, lookupA, Ne.symm h]
    · simp [setA, hk, lookupA, ih]

theorem lookupA_delA_self {α : Type} (k : String) (m : List (String × α)) :
    lookupA k (delA k m) = none := by
  induction m with
  | nil => simp [lookupA, delA]
  | cons kv t ih =>
    by_cases h : kv.1 = k
    · simp [delA, h, ih]
    · simp [delA, h, lookupA, ih]

theorem lookupA_delA_ne {α : Type} {k j : String} (m : List (String × α))
    (h : j ≠ k) : lookupA j (delA k m) = lookupA j m := by
  induction m with
  | nil => simp [delA]
  | cons kv t ih =>
    by_cases hk : kv.1 = k
    · simp [delA, hk, lookupA, Ne.symm h, ih]
    · simp [delA, hk, lookupA, ih]

/-! ## codes.js : normalizeCode

The source function is

  code.toLowerCase()
      .replace(slash 0o slash g, 'o')
      .replace(slash 1il slash g, 'l')
      .replace(slash s+ slash g, '-')
      .trim()

Strings are modelled as lists of characters, toLowerCase as the ASCII
Char.toLower map, the two substitution regexes as character maps, the
whitespace-run regex as a structural collapse, and trim as dropping
whitespace from both ends. -/

/-- ASCII whitespace characters matched by the regex class backslash-s and
removed by trim. -/
def isWs (c : Char) : Bool :=
  c == ' ' || c == '\t' || c == '\n' || c == '\r' ||
    c == Char.ofNat 11 || c == Char.ofNat 12

/-- The first substitution of normalizeCode: the characters 0 and o map to o. -/
def sub0o (c : Char) : Char :=
  if c = '0' ∨ c = 'o' then 'o' else c

/-- The second substitution of normalizeCode: the characters 1, i and l map
to l. -/
def sub1il (c : Char) : Char :=
  if c = '1' ∨ c = 'i' ∨ c = 'l' then 'l' else c

/-- Replace each maximal run of whitespace with a single hyphen.  The boolean
records whether the previous character was whitespace. -/
def collapseAux : Bool → List Char → List Char
  | _, [] => []
  | prevWs, c :: t =>
    if isWs c then
      if prevWs then collapseAux true t else '-' :: collapseAux true t
    else c :: collapseAux false t

/-- The whitespace-run replacement of normalizeCode. -/
def collapseWs (l : List Char) : List Char := collapseAux false l

/-- JavaScript String.prototype.trim : drop whitespace from both ends. -/
def jsTrim (l : List Char) : List Char :=
  ((l.dropWhile isWs).reverse.dropWhile isWs).reverse

/-- Shallow embedding of normalizeCode from codes.js: lowercase, substitute
0 and o to o, substitute 1, i and l to l, collapse whitespace runs to a
hyphen, then trim. -/
def normalizeCode (l : List Char) : List Char :=
  jsTrim (collapseWs (((l.map Char.toLower).map sub0o).map sub1il))

/-- The normalization function that claim C5 describes, written from the
words of the spec: lowercase, collapse runs of ASCII whitespace to a single
hyphen, trim leading and trailing hyphens and whitespace, and perform no
character substitution. -/
def normalizeClaimed (l : List Char) : List Char :=
  let isWsOrHy : Char → Bool := fun c => isWs c || c == '-'
  (((collapseWs (l.map Char.toLower)).dropWhile isWsOrHy).reverse.dropWhile
    isWsOrHy).reverse

/-- What normalizeCode actually computes once the final no-op trim is
removed: lowercase, both character substitutions, whitespace runs to a
hyphen, and no trimming of hyphens. -/
def normalizeAmended (l : List Char) : List Char :=
  collapseWs (((l.map Char.toLower).map sub0o).map sub1il)

/-- The combined per-character action of the three character-level stages of
normalizeCode. -/
def normChar (c : Char) : Char := sub1il (sub0o c.toLower)

theorem maps_eq (l : List Char) :
    ((l.map Char.toLower).map sub0o).map sub1il = l.map normChar := by
  simp only [List.map_map]
  exact List.map_congr_left fun a _ => rfl

theorem toLower_eq_of_not (c : Char) (h : ¬(65 ≤ c.toNat ∧ c.toNat ≤ 90)) :
    c.toLower = c := by
  simp [Char.toLower, h]

theorem toLower_eq_of (c : Char) (h : 65 ≤ c.toNat ∧ c.toNat ≤ 90) :
    c.toLower = Char.ofNat (c.toNat + 32) := by
  simp [Char.toLower, h]

theorem toLower_ofNat_shift (n : Nat) (h1 : 65 ≤ n) (h2 : n ≤ 90) :
    (Char.ofNat (n + 32)).toLower = Char.ofNat (n + 32) := by
  interval_cases n <;> decide

theorem toLower_toLower (c : Char) : c.toLower.toLower = c.toLower := by
  by_cases h : 65 ≤ c.toNat ∧ c.toNat ≤ 90
  · rw [toLower_eq_of c h, toLower_ofNat_shift c.toNat h.1 h.2]
  · rw [toLower_eq_of_not c h, toLower_eq_of_not c h]

theorem sub0o_sub0o (c : Char) : sub0o (sub0o c) = sub0o c := by
  unfold sub0o
  split_ifs with h1 h2 <;> simp_all

theorem sub1il_sub1il (c : Char) : sub1il (sub1il c) = sub1il c := by
  unfold sub1il
  split_ifs with h1 h2 <;> simp_all

theorem toLower_normChar (c : Char) : (normChar c).toLower = normChar c := by
  unfold normChar sub1il
  split_ifs with h
  · decide
  · unfold sub0o
    split_ifs with h2
    · decide
    · exact toLower_toLower c

theorem sub0o_normChar (c : Char) : sub0o (normChar c) = normChar c := by
  unfold normChar sub1il
  split_ifs with h
  · decide
  · exact sub0o_sub0o c.toLower

theorem sub1il_normChar (c : Char) : sub1il (normChar c) = normChar c := by
  unfold normChar
  exact sub1il_sub1il _

theorem normChar_normChar (c : Char) : normChar (normChar c) = normChar c := by
  show sub1il (sub0o (normChar c).toLower) = normChar c
  rw [toLower_normChar, sub0o_normChar, sub1il_normChar]

theorem mem_collapseAux {c : Char} :
    ∀ (l : List Char) (b : Bool), c ∈ collapseAux b l →
      isWs c = false ∧ (c = '-' ∨ c ∈ l) := by
  intro l
  induction l with
  | nil => intro b h; simp [collapseAux] at h
  | cons d t ih =>
    intro b h
    by_cases hd : isWs d
    · cases b with
      | true =>
        simp only [collapseAux, hd, if_pos, if_true] at h
        obtain ⟨hws, hor⟩ := ih true h
        exact ⟨hws, hor.imp id (List.mem_cons_of_mem d)⟩
      | false =>
        simp only [collapseAux, hd, if_pos, if_false] at h
        rcases List.mem_cons.mp h with rfl | h2
        · exact ⟨by decide, Or.inl rfl⟩
        · obtain ⟨hws, hor⟩ := ih true h2
          exact ⟨hws, hor.imp id (List.mem_cons_of_mem d)⟩
    · simp only [collapseAux, hd, if_neg, if_false] at h
      rcases List.mem_cons.mp h with rfl | h2
      · exact ⟨by simpa using hd, Or.inr (List.mem_cons_self _ _)⟩
      · obtain ⟨hws, hor⟩ := ih false h2
        exact ⟨hws, hor.imp id (List.mem_cons_of_mem d)⟩

theorem collapseAux_eq_self {l : List Char} (h : ∀ c ∈ l, isWs c = false) :
    ∀ b, collapseAux b l = l := by
  induction l with
  | nil => intro b; rfl
  | cons d t ih =>
    intro b
    have hd : isWs d = false := h d (List.mem_cons_self _ _)
    simp only [collapseAux, hd]
    simp [ih fun c hc => h c (List.mem_cons_of_mem d hc)]

theorem mem_dropWhile {p : Char → Bool} {c : Char} :
    ∀ {l : List Char}, c ∈ l.dropWhile p → c ∈ l := by
  intro l
  induction l with
  | nil => intro h; simp [List.dropWhile] at h
  | cons a t ih =>
    intro h
    by_cases ha : p a
    · simp only [List.dropWhile, ha, if_pos] at h
      exact List.mem_cons_of_mem a (ih h)
    · simp only [List.dropWhile, ha] at h
      simpa using h

theorem dropWhile_eq_self {p : Char → Bool} {l : List Char}
    (h : ∀ c ∈ l, p c = false) : l.dropWhile p = l := by
  cases l with
  | nil => rfl
  | cons a t => simp [List.dropWhile, h a (List.mem_cons_self _ _)]

theorem mem_jsTrim {c : Char} {l : List Char} (h : c ∈ jsTrim l) : c ∈ l := by
  unfold jsTrim at h
  rw [List.mem_reverse] at h
  have h2 := mem_dropWhile h
  rw [List.mem_reverse] at h2
  exact mem_dropWhile h2

theorem jsTrim_eq_self {l : List Char} (h : ∀ c ∈ l, isWs c = false) :
    jsTrim l = l := by
  unfold jsTrim
  rw [dropWhile_eq_self h,
    dropWhile_eq_self (fun c hc => h c (List.mem_reverse.mp hc)),
    List.reverse_reverse]

theorem map_id_of {l : List Char} {f : Char → Char} (h : ∀ c ∈ l, f c = c) :
    l.map f = l := by
  induction l with
  | nil => rfl
  | cons a t ih =>
    simp [h a (List.mem_cons_self _ _),
      ih fun c hc => h c (List.mem_cons_of_mem a hc)]

theorem normalizeCode_chars {l : List Char} :
    ∀ c ∈ normalizeCode l, isWs c = false ∧ normChar c = c := by
  intro c hc
  unfold normalizeCode at hc
  rw [maps_eq] at hc
  have hc2 := mem_jsTrim hc
  obtain ⟨hws, hor⟩ := mem_collapseAux (l.map normChar) false hc2
  refine ⟨hws, ?_⟩
  rcases hor with rfl | hmem
  · decide
  · obtain ⟨y, _, rfl⟩ := List.mem_map.mp hmem
    exact normChar_normChar y

/-- C5 counterexample: normalizeCode does substitute the characters 0 and i
(to o and l respectively), and it does not trim leading hyphens produced
from leading whitespace, so it differs from the normalization function the
claim describes. -/
theorem c5_normalize_counterexample :
    normalizeCode [' ', '0', 'i'] ≠ normalizeClaimed [' ', '0', 'i'] ∧
    normalizeCode ['0'] = ['o'] ∧ normalizeClaimed ['0'] = ['0'] ∧
    normalizeCode ['i'] = ['l'] ∧
    normalizeCode [' ', 'a'] = ['-', 'a'] ∧
    normalizeClaimed [' ', 'a'] = ['a'] := by
  refine ⟨by decide, by decide, by decide, by decide, by decide, by decide⟩

/-- C5 (amended): normalizeCode lowercases, substitutes the characters 0 and
o to o and the characters 1, i and l to l, and collapses each run of ASCII
whitespace to a single hyphen; the trailing trim only removes leading and
trailing whitespace, of which none remains after the collapse, so it is a
no-op and leading or trailing hyphens are kept. -/
theorem c5_normalizeCode_amended (l : List Char) :
    normalizeCode l = normalizeAmended l := by
  unfold normalizeCode normalizeAmended
  apply jsTrim_eq_self
  intro c hc
  exact (mem_collapseAux _ false hc).1

/-- C5 witness: the amended characterization evaluated on a concrete
string with an uppercase letter, whitespace and a substituted digit. -/
theorem c5_normalizeCode_amended_witness :
    normalizeCode [' ', 'A', '0'] = normalizeAmended [' ', 'A', '0'] :=
  c5_normalizeCode_amended [' ', 'A', '0']

/-- C9: normalizeCode is idempotent; normalizing an already normalized code
is the identity. -/
theorem c9_normalizeCode_idempotent (l : List Char) :
    normalizeCode (normalizeCode l) = normalizeCode l := by
  have hch := normalizeCode_chars (l := l)
  have h1 : ((((normalizeCode l).map Char.toLower).map sub0o).map sub1il)
      = normalizeCode l := by
    rw [maps_eq]
    exact map_id_of fun c hc => (hch c hc).2
  have h2 : collapseWs (normalizeCode l) = normalizeCode l :=
    collapseAux_eq_self (fun c hc => (hch c hc).1) false
  show jsTrim (collapseWs ((((normalizeCode l).map Char.toLower).map
    sub0o).map sub1il)) = normalizeCode l
  rw [h1, h2]
  exact jsTrim_eq_self fun c hc => (hch c hc).1

/-- C9 witness: idempotence evaluated on a concrete string. -/
theorem c9_normalizeCode_idempotent_witness :
    normalizeCode (normalizeCode ['A', ' ', '1', 'b']) =
      normalizeCode ['A', ' ', '1', 'b'] :=
  c9_normalizeCode_idempotent ['A', ' ', '1', 'b']

/-! ## rate-limit.js : RateLimiter.isAllowed

The limiter keeps, per key, a record with a count and a reset time.  A call
at time now resets the record (count 1, reset time now plus windowMs) when
the record is absent or expired, refuses when the count has reached
maxRequests, and otherwise increments the count. -/

/-- Configuration of a RateLimiter instance. -/
structure RLCfg where
  windowMs : Nat
  maxRequests : Nat
deriving DecidableEq

/-- The requests map of a RateLimiter: key to (count, resetTime). -/
abbrev RLState := List (String × (Nat × Nat))

/-- Shallow embedding of RateLimiter.isAllowed from rate-limit.js. -/
def isAllowed (cfg : RLCfg) (st : RLState) (key : String) (now : Nat) :
    Bool × RLState :=
  match lookupA key st with
  | none => (true, setA key (1, now + cfg.windowMs) st)
  | some rec =>
    if rec.2 < now then (true, setA key (1, now + cfg.windowMs) st)
    else if cfg.maxRequests ≤ rec.1 then (false, st)
    else (true, setA key (rec.1 + 1, rec.2) st)

/-- Number of calls for a given key that isAllowed answers with true, over a
trace of (key, time) calls processed in order from a starting state. -/
def kTrues (cfg : RLCfg) (k : String) : RLState → List (String × Nat) → Nat
  | _, [] => 0
  | st, kt :: rest =>
    let out := isAllowed cfg st kt.1 kt.2
    (if kt.1 = k ∧ out.1 = true then 1 else 0) + kTrues cfg k out.2 rest

/-- Number of true answers for a key whose call times lie in the closed
interval from lo to hi. -/
def kTruesWin (cfg : RLCfg) (k : String) (lo hi : Nat) :
    RLState → List (String × Nat) → Nat
  | _, [] => 0
  | st, kt :: rest =>
    let out := isAllowed cfg st kt.1 kt.2
    (if kt.1 = k ∧ out.1 = true ∧ lo ≤ kt.2 ∧ kt.2 ≤ hi then 1 else 0) +
      kTruesWin cfg k lo hi out.2 rest

theorem isAllowed_lookup_other (cfg : RLCfg) (st : RLState) {k j : String}
    (t : Nat) (h : k ≠ j) :
    lookupA j (isAllowed cfg st k t).2 = lookupA j st := by
  unfold isAllowed
  cases hrec : lookupA k st with
  | none => simp [lookupA_setA_ne _ _ (Ne.symm h)]
  | some rec =>
    by_cases h1 : rec.2 < t
    · simp [h1, lookupA_setA_ne _ _ (Ne.symm h)]
    · by_cases h2 : cfg.maxRequests ≤ rec.1
      · simp [h1, h2]
      · simp [h1, h2, lookupA_setA_ne _ _ (Ne.symm h)]

theorem kTrues_bound_aux (cfg : RLCfg) (k : String) :
    ∀ (trace : List (String × Nat)) (st : RLState) (c r : Nat),
      lookupA k st = some (c, r) →
      (∀ kt ∈ trace, kt.1 = k → kt.2 ≤ r) →
      kTrues cfg k st trace ≤ cfg.maxRequests - c := by
  intro trace
  induction trace with
  | nil => intro st c r _ _; simp [kTrues]
  | cons kt rest ih =>
    intro st c r hrec htimes
    by_cases hk : kt.1 = k
    · have ht : kt.2 ≤ r := htimes kt (List.mem_cons_self _ _) hk
      have hnr : ¬ r < kt.2 := Nat.not_lt.mpr ht
      by_cases hmax : cfg.maxRequests ≤ c
      · have hout : isAllowed cfg st kt.1 kt.2 = (false, st) := by
          simp [isAllowed, hk, hrec, hnr, hmax]
        simp only [kTrues, hout]
        have := ih st c r hrec
          (fun kt2 h2 hk2 => htimes kt2 (List.mem_cons_of_mem kt h2) hk2)
        simpa using this
      · have hout : isAllowed cfg st kt.1 kt.2 =
            (true, setA k (c + 1, r) st) := by
          simp [isAllowed, hk, hrec, hnr, hmax]
        rw [hk] at hout
        have hrec2 : lookupA k (setA k (c + 1, r) st) = some (c + 1, r) :=
          lookupA_setA_self k _ st
        have := ih (setA k (c + 1, r) st) (c + 1) r hrec2
          (fun kt2 h2 hk2 => htimes kt2 (List.mem_cons_of_mem kt h2) hk2)
        simp [kTrues, hout, hk]
        omega
    · have hlook : lookupA k (isAllowed cfg st kt.1 kt.2).2 = some (c, r) := by
        rw [isAllowed_lookup_other cfg st kt.2 hk]
        exact hrec
      simp only [kTrues, hk]
      have := ih (isAllowed cfg st kt.1 kt.2).2 c r hlook
        (fun kt2 h2 hk2 => htimes kt2 (List.mem_cons_of_mem kt h2) hk2)
      simpa [hk] using this

theorem kTrues_bound (cfg : RLCfg) (k : String) (hmax : 1 ≤ cfg.maxRequests) :
    ∀ (trace : List (String × Nat)) (st : RLState),
      lookupA k st = none →
      (∀ kt ∈ trace, kt.1 = k → ∀ kt2 ∈ trace, kt2.1 = k →
        kt2.2 ≤ kt.2 + cfg.windowMs) →
      kTrues cfg k st trace ≤ cfg.maxRequests := by
  intro trace
  induction trace with
  | nil => intro st _ _; simp [kTrues]
  | cons kt rest ih =>
    intro st hnone hwin
    by_cases hk : kt.1 = k
    · have hout : isAllowed cfg st kt.1 kt.2 =
          (true, setA kt.1 (1, kt.2 + cfg.windowMs) st) := by
        simp [isAllowed, hk, hnone]
      rw [hk] at hout
      have hrec : lookupA k (setA k (1, kt.2 + cfg.windowMs) st) =
          some (1, kt.2 + cfg.windowMs) :=
        lookupA_setA_self k _ st
      have hb := kTrues_bound_aux cfg k rest _ 1 (kt.2 + cfg.windowMs) hrec
        (fun kt2 h2 hk2 => hwin kt (List.mem_cons_self _ _) hk
          kt2 (List.mem_cons_of_mem kt h2) hk2)
      simp [kTrues, hout, hk]
      omega
    · have hlook : lookupA k (isAllowed cfg st kt.1 kt.2).2 = none := by
        rw [isAllowed_lookup_other cfg st kt.2 hk]
        exact hnone
      simp only [kTrues, hk]
      have := ih (isAllowed cfg st kt.1 kt.2).2 hlook
        (fun kt2 h2 hk2 kt3 h3 hk3 =>
          hwin kt2 (List.mem_cons_of_mem kt h2) hk2
            kt3 (List.mem_cons_of_mem kt h3) hk3)
      simpa [hk] using this

/-- C6 counterexample: with windowMs 10 and maxRequests 2, the calls for key
k at times 0, 9, 11 and 12 are all answered true (the fixed window resets
after time 10), so the time window from 9 to 19, of width windowMs, contains
three true answers, more than maxRequests. -/
theorem c6_rate_limit_counterexample :
    kTruesWin ⟨10, 2⟩ "k" 9 19 []
      [("k", 0), ("k", 9), ("k", 11), ("k", 12)] = 3 ∧
    (3 : Nat) > 2 ∧ 19 - 9 = 10 := by
  refine ⟨by decide, by decide, by decide⟩

/-- C6 (amended): for a limiter with maxRequests at least one and any trace
of interleaved calls, if all of the calls for a key fall within windowMs of
each other (so the bucket created at the first of them never resets), then
isAllowed answers true for that key at most maxRequests times; and a call
for one key never changes the stored record of any other key.  Across a
bucket reset, a window of width windowMs can see more than maxRequests true
answers. -/
theorem c6_rate_limit_amended (cfg : RLCfg) (k : String)
    (hmax : 1 ≤ cfg.maxRequests) (trace : List (String × Nat)) (st : RLState)
    (hfresh : lookupA k st = none)
    (hwin : ∀ kt ∈ trace, kt.1 = k → ∀ kt2 ∈ trace, kt2.1 = k →
      kt2.2 ≤ kt.2 + cfg.windowMs) :
    kTrues cfg k st trace ≤ cfg.maxRequests ∧
    (∀ (st2 : RLState) (j k2 : String) (t : Nat), k2 ≠ j →
      lookupA j (isAllowed cfg st2 k2 t).2 = lookupA j st2) :=
  ⟨kTrues_bound cfg k hmax trace st hfresh hwin,
   fun st2 _ _ t h => isAllowed_lookup_other cfg st2 t h⟩

/-- C6 witness: the amended bound and the key-independence instantiated on a
concrete limiter, trace and pair of keys. -/
theorem c6_rate_limit_amended_witness :
    kTrues ⟨10, 2⟩ "k" [] [("k", 0), ("j", 4), ("k", 6)] ≤ 2 ∧
    lookupA "j" (isAllowed ⟨10, 2⟩ [("j", (1, 7))] "k" 3).2 = some (1, 7) := by
  have h := c6_rate_limit_amended ⟨10, 2⟩ "k" (by decide)
    [("k", 0), ("j", 4), ("k", 6)] [] (by decide)
    (by decide)
  refine ⟨h.1, ?_⟩
  rw [h.2 [("j", (1, 7))] "j" "k" 3 (by decide)]
  decide

/-! ## rooms.js : the room registry

Rooms are stored in a map keyed by code, with a reverse index socketToRoom
keyed by socket id.  Socket side effects are collected in an effect list in
the order the source performs them, and the per-IP room counter kept by the
disconnect handler of index.js is a third map. -/

/-- A transport connection: its stable id and its liveness flag. -/
structure Socket where
  id : String
  connected : Bool
deriving DecidableEq

/-- An entry of pendingPeers or approvedPeers: the peer socket and the
caller-supplied display name. -/
structure PeerEntry where
  socket : Socket
  name : String
deriving DecidableEq

/-- A room of rooms.js. -/
structure Room where
  code : String
  hostSocket : Socket
  hostId : String
  pendingPeers : List (String × PeerEntry)
  approvedPeers : List (String × PeerEntry)
  createdAt : Nat
deriving DecidableEq

/-- A socketToRoom entry: the room code, the role flag, and the peerId field
that joinRoom records. -/
structure RoomInfo where
  code : String
  isHost : Bool
  peerId : Option String
deriving DecidableEq

/-- Payloads of the events the registry emits. -/
inductive EvPayload where
  | peerRequest (peerId name : String)
  | peerApproved (hostId : String)
  | peerDenied
  | hostDisconnected
  | hostReconnected (hostId : String)
  | peerDisconnected (peerId : String)
  | signalMsg (fromId payload : String)
deriving DecidableEq

/-- Socket side effects: an emit on a target socket (recorded by target id),
joining a room channel, and leaving a room channel. -/
inductive Effect where
  | emit (target : String) (p : EvPayload)
  | chanJoin (sid code : String)
  | chanLeave (sid code : String)
deriving DecidableEq

/-- The module-level mutable state: the rooms map and socketToRoom from
rooms.js, plus the roomsPerIp counter from index.js. -/
structure St where
  rooms : List (String × Room)
  socketToRoom : List (String × RoomInfo)
  roomsPerIp : List (String × Nat)
deriving DecidableEq

/-- Initial state: all three maps empty. -/
def emptySt : St := ⟨[], [], []⟩

/-- Return values of the registry functions. -/
inductive Res where
  | resError (msg : String)
  | createOk (code : String)
  | joinOk (peerId : String) (hostConnected : Bool)
  | approveOk (denied : Bool)
  | signalOk
  | rejoinOk (code : String) (peers : List (String × String))
deriving DecidableEq

/-- createRoom from rooms.js.  The code drawn by the generate-until-unused
loop is passed as an argument, as is the Date.now timestamp. -/
def createRoom (st : St) (s : Socket) (code : String) (now : Nat) :
    Res × St × List Effect :=
  let room : Room := ⟨code, s, s.id, [], [], now⟩
  (Res.createOk code,
   { st with rooms := setA code room st.rooms,
             socketToRoom := setA s.id ⟨code, true, none⟩ st.socketToRoom },
   [Effect.chanJoin s.id code])

/-- joinRoom from rooms.js. -/
def joinRoom (st : St) (s : Socket) (code name : String) :
    Res × St × List Effect :=
  match lookupA code st.rooms with
  | none => (Res.resError "Room not found", st, [])
  | some room =>
    let room2 :=
      { room with pendingPeers := setA s.id ⟨s, name⟩ room.pendingPeers }
    (Res.joinOk s.id room.hostSocket.connected,
     { st with rooms := setA code room2 st.rooms,
               socketToRoom := setA s.id ⟨code, false, some s.id⟩
                 st.socketToRoom },
     [Effect.chanJoin s.id code,
      Effect.emit room.hostSocket.id (EvPayload.peerRequest s.id name)])

/-- approvePeer from rooms.js. -/
def approvePeer (st : St) (hostS : Socket) (peerId : String)
    (approved : Bool) : Res × St × List Effect :=
  match lookupA hostS.id st.socketToRoom with
  | none => (Res.resError "Not a host", st, [])
  | some info =>
    if info.isHost = false then (Res.resError "Not a host", st, [])
    else
      match lookupA info.code st.rooms with
      | none => (Res.resError "Room not found", st, [])
      | some room =>
        match lookupA peerId room.pendingPeers with
        | none => (Res.resError "Peer not found in pending", st, [])
        | some pend =>
          let room2 :=
            { room with pendingPeers := delA peerId room.pendingPeers }
          if approved then
            let room3 := { room2 with
              approvedPeers := setA peerId pend room2.approvedPeers }
            (Res.approveOk false,
             { st with rooms := setA info.code room3 st.rooms },
             [Effect.emit pend.socket.id (EvPayload.peerApproved room.hostId)])
          else
            (Res.approveOk true,
             { st with rooms := setA info.code room2 st.rooms,
                       socketToRoom := delA pend.socket.id st.socketToRoom },
             [Effect.emit pend.socket.id EvPayload.peerDenied,
              Effect.chanLeave pend.socket.id info.code])

/-- signal from rooms.js. -/
def signal (st : St) (s : Socket) (toId payload : String) :
    Res × St × List Effect :=
  match lookupA s.id st.socketToRoom with
  | none => (Res.resError "Not in a room", st, [])
  | some info =>
    match lookupA info.code st.rooms with
    | none => (Res.resError "Room not found", st, [])
    | some room =>
      if room.hostId = s.id ∨ (lookupA s.id room.approvedPeers).isSome = true
      then
        match (if toId = room.hostId then some room.hostSocket
               else Option.map (fun e => e.socket)
                 (lookupA toId room.approvedPeers)) with
        | none => (Res.resError "Target not found", st, [])
        | some tgt =>
          (Res.signalOk, st,
           [Effect.emit tgt.id (EvPayload.signalMsg s.id payload)])
      else (Res.resError "Not authorized to signal", st, [])

/-- handleDisconnect from rooms.js. -/
def handleDisconnect (st : St) (s : Socket) : St × List Effect :=
  match lookupA s.id st.socketToRoom with
  | none => (st, [])
  | some info =>
    match lookupA info.code st.rooms with
    | none => (st, [])
    | some room =>
      if info.isHost then
        let effs :=
          room.approvedPeers.map
            (fun kv => Effect.emit kv.2.socket.id EvPayload.hostDisconnected)
          ++ room.pendingPeers.map
            (fun kv => Effect.emit kv.2.socket.id EvPayload.hostDisconnected)
        let idx1 := room.approvedPeers.foldl
          (fun m kv => delA kv.1 m) st.socketToRoom
        let idx2 := room.pendingPeers.foldl (fun m kv => delA kv.1 m) idx1
        ({ st with rooms := delA info.code st.rooms,
                   socketToRoom := delA s.id idx2 }, effs)
      else
        let room2 := { room with
          pendingPeers := delA s.id room.pendingPeers,
          approvedPeers := delA s.id room.approvedPeers }
        ({ st with rooms := setA info.code room2 st.rooms,
                   socketToRoom := delA s.id st.socketToRoom },
         [Effect.emit room.hostSocket.id (EvPayload.peerDisconnected s.id)])

/-- rejoinRoom from rooms.js. -/
def rejoinRoom (st : St) (s : Socket) (code : String) (isHost : Bool)
    (name : String) : Res × St × List Effect :=
  match lookupA code st.rooms with
  | none => (Res.resError "Room not found", st, [])
  | some room =>
    if isHost then
      let room2 := { room with hostSocket := s, hostId := s.id }
      (Res.rejoinOk code (room.approvedPeers.map fun kv => (kv.1, kv.2.name)),
       { st with rooms := setA code room2 st.rooms,
                 socketToRoom := setA s.id ⟨code, true, none⟩
                   st.socketToRoom },
       Effect.chanJoin s.id code ::
         room.approvedPeers.map
           (fun kv => Effect.emit kv.2.socket.id
             (EvPayload.hostReconnected s.id)))
    else joinRoom st s code name

/-- The disconnect handler of index.js: decrement the per-IP room counter
when the disconnecting socket has a HOST index entry (deleting the key at
zero), then delegate to handleDisconnect. -/
def onDisconnect (st : St) (s : Socket) (ip : String) : St × List Effect :=
  let st1 :=
    match lookupA s.id st.socketToRoom with
    | some info =>
      if info.isHost then
        let count := (lookupA ip st.roomsPerIp).getD 1
        if count ≤ 1 then { st with roomsPerIp := delA ip st.roomsPerIp }
        else { st with roomsPerIp := setA ip (count - 1) st.roomsPerIp }
      else st
    | none => st
  handleDisconnect st1 s

/-- Number of emits of a given payload to a given target socket id in an
effect list. -/
def countEff (tgt : String) (p : EvPayload) : List Effect → Nat
  | [] => 0
  | e :: t => (if e = Effect.emit tgt p then 1 else 0) + countEff tgt p t

/-! ## Concrete fixture used by the witnesses -/

/-- Fixture: host socket. -/
def sockH : Socket := ⟨"h", true⟩

/-- Fixture: approved peer socket. -/
def sockP : Socket := ⟨"p", true⟩

/-- Fixture: pending peer socket. -/
def sockQ : Socket := ⟨"q", true⟩

/-- Fixture: replacement host socket. -/
def sockH2 : Socket := ⟨"h2", true⟩

/-- Fixture: peer entry of the approved peer. -/
def entryP : PeerEntry := ⟨sockP, "Alice"⟩

/-- Fixture: peer entry of the pending peer. -/
def entryQ : PeerEntry := ⟨sockQ, "Bob"⟩

/-- Fixture: a room with host h, approved peer p and pending peer q. -/
def roomW : Room := ⟨"abc", sockH, "h", [("q", entryQ)], [("p", entryP)], 0⟩

/-- Fixture: registry state holding roomW with consistent index entries and
one room counted for the host IP. -/
def stW : St :=
  ⟨[("abc", roomW)],
   [("h", ⟨"abc", true, none⟩), ("p", ⟨"abc", false, some "p"⟩),
    ("q", ⟨"abc", false, some "q"⟩)],
   [("ip1", 1)]⟩

/-- C1: under a signal call whose sender has an index entry resolving to an
existing room, (a) a sender that is neither the host nor an approved peer
gets the not-authorized error and nothing is emitted, (b) a signal emit
happens exactly when the sender is authorized and the target id resolves,
(c) any emitted signal goes to the host socket (when the target id is the
host id) or to an approved peer socket, never anywhere else, and (d) for an
authorized sender, a target id that is neither the host id nor approved --
in particular one only in pendingPeers -- yields the target-not-found error
and no emit. -/
theorem c1_signal_authorization (st : St) (s : Socket) (toId payload : String)
    (info : RoomInfo) (room : Room)
    (hinfo : lookupA s.id st.socketToRoom = some info)
    (hroom : lookupA info.code st.rooms = some room) :
    (¬ (room.hostId = s.id ∨ (lookupA s.id room.approvedPeers).isSome = true) →
      (signal st s toId payload).1 = Res.resError "Not authorized to signal" ∧
      (signal st s toId payload).2.2 = []) ∧
    ((∃ t p, Effect.emit t p ∈ (signal st s toId payload).2.2) ↔
      ((room.hostId = s.id ∨ (lookupA s.id room.approvedPeers).isSome = true) ∧
       (toId = room.hostId ∨ (lookupA toId room.approvedPeers).isSome = true))) ∧
    (∀ t p, Effect.emit t p ∈ (signal st s toId payload).2.2 →
      (toId = room.hostId ∧ t = room.hostSocket.id) ∨
      (toId ≠ room.hostId ∧ ∃ e, lookupA toId room.approvedPeers = some e ∧
        t = e.socket.id)) ∧
    ((room.hostId = s.id ∨ (lookupA s.id room.approvedPeers).isSome = true) →
      ¬ (toId = room.hostId ∨ (lookupA toId room.approvedPeers).isSome = true) →
      (signal st s toId payload).1 = Res.resError "Target not found" ∧
      (signal st s toId payload).2.2 = []) := by
  by_cases hauth :
      room.hostId = s.id ∨ (lookupA s.id room.approvedPeers).isSome = true
  · by_cases htgt : toId = room.hostId
    · have hsig : signal st s toId payload = (Res.signalOk, st,
          [Effect.emit room.hostSocket.id (EvPayload.signalMsg s.id payload)])
          := by
        simp [signal, hinfo, hroom, hauth, htgt]
      refine ⟨fun hc => absurd hauth hc, ?_, ?_,
        fun _ hc => absurd (Or.inl htgt) hc⟩
      · constructor
        · intro _; exact ⟨hauth, Or.inl htgt⟩
        · intro _
          exact ⟨room.hostSocket.id, EvPayload.signalMsg s.id payload,
            by simp [hsig]⟩
      · intro t p hmem
        rw [hsig] at hmem
        simp at hmem
        exact Or.inl ⟨htgt, hmem.1⟩
    · cases hlook : lookupA toId room.approvedPeers with
      | none =>
        have hsig : signal st s toId payload =
            (Res.resError "Target not found", st, []) := by
          simp [signal, hinfo, hroom, hauth, htgt, hlook]
        refine ⟨fun hc => absurd hauth hc, ?_, by simp [hsig],
          fun _ _ => by simp [hsig]⟩
        simp [hsig, htgt, hlook]
      | some e =>
        have hsig : signal st s toId payload = (Res.signalOk, st,
            [Effect.emit e.socket.id (EvPayload.signalMsg s.id payload)]) := by
          simp [signal, hinfo, hroom, hauth, htgt, hlook]
        refine ⟨fun hc => absurd hauth hc, ?_, ?_,
          fun _ hc => absurd (Or.inr (by simp [hlook])) hc⟩
        · constructor
          · intro _; exact ⟨hauth, Or.inr (by simp [hlook])⟩
          · intro _
            exact ⟨e.socket.id, EvPayload.signalMsg s.id payload,
              by simp [hsig]⟩
        · intro t p hmem
          rw [hsig] at hmem
          simp at hmem
          exact Or.inr ⟨htgt, e, rfl, hmem.1⟩
  · have hsig : signal st s toId payload =
        (Res.resError "Not authorized to signal", st, []) := by
      simp only [signal, hinfo, hroom]
      rw [if_neg hauth]
    refine ⟨fun _ => by simp [hsig], ?_, by simp [hsig],
      fun hc => absurd hc hauth⟩
    simp [hsig, hauth]

/-- C1 witness: in the fixture state, the pending peer q is not authorized
to signal, and the call emits nothing. -/
theorem c1_signal_authorization_witness :
    (signal stW sockQ "h" "blob").1 =
      Res.resError "Not authorized to signal" ∧
    (signal stW sockQ "h" "blob").2.2 = [] :=
  (c1_signal_authorization stW sockQ "h" "blob" ⟨"abc", false, some "q"⟩
    roomW (by decide) (by decide)).1 (by decide)

theorem lookupA_eq_none_iff {α : Type} (k : String) (l : List (String × α)) :
    lookupA k l = none ↔ k ∉ l.map Prod.fst := by
  induction l with
  | nil => simp [lookupA]
  | cons kv t ih =>
    by_cases h : kv.1 = k
    · simp [lookupA, h]
    · simp [lookupA, h, ih, Ne.symm h]

theorem lookupA_isSome_mem {α : Type} {k : String} {l : List (String × α)}
    (h : (lookupA k l).isSome = true) : k ∈ l.map Prod.fst := by
  by_contra hmem
  rw [(lookupA_eq_none_iff k l).mpr hmem] at h
  simp at h

theorem countEff_append (tgt : String) (p : EvPayload) (a b : List Effect) :
    countEff tgt p (a ++ b) = countEff tgt p a + countEff tgt p b := by
  induction a with
  | nil => simp [countEff]
  | cons e t ih => simp [countEff, ih]; omega

theorem countEff_map_emit (p : EvPayload) (l : List (String × PeerEntry))
    (hnd : (l.map Prod.fst).Nodup)
    (hwf : ∀ kv ∈ l, kv.2.socket.id = kv.1) (k : String) :
    countEff k p (l.map fun kv => Effect.emit kv.2.socket.id p) =
      if (lookupA k l).isSome then 1 else 0 := by
  induction l with
  | nil => simp [countEff, lookupA]
  | cons kv t ih =>
    have hid : kv.2.socket.id = kv.1 := hwf kv (List.mem_cons_self _ _)
    have hnd2 : (t.map Prod.fst).Nodup := (List.nodup_cons.mp hnd).2
    have ihp := ih hnd2 fun kv2 h2 => hwf kv2 (List.mem_cons_of_mem kv h2)
    by_cases hk : kv.1 = k
    · have hnt : lookupA k t = none := by
        rw [lookupA_eq_none_iff]
        exact hk ▸ (List.nodup_cons.mp hnd).1
      simp [countEff, hid, hk, lookupA, ihp, hnt]
    · simp [countEff, hid, hk, lookupA, ihp]

/-- C4 counterexample: in the fixture state the host socket h already has a
connection-index entry, yet a second createRoom by h succeeds (returning the
new code, not an already-in-room error) and changes the registry, and a
joinRoom by h into the existing room also succeeds and changes the
registry. -/
theorem c4_already_in_room_counterexample :
    (lookupA "h" stW.socketToRoom).isSome = true ∧
    (createRoom stW sockH "ddd" 5).1 = Res.createOk "ddd" ∧
    (createRoom stW sockH "ddd" 5).2.1 ≠ stW ∧
    (joinRoom stW sockH "abc" "X").1 = Res.joinOk "h" true ∧
    (joinRoom stW sockH "abc" "X").2.1 ≠ stW := by
  refine ⟨by decide, by decide, by decide, by decide, by decide⟩

/-- C4 (amended): createRoom and joinRoom perform no connection-index
check.  A connection whose id already has an index entry can still create a
room: the call succeeds and overwrites the index entry to role HOST for the
new room.  It can also still join an existing room: the call succeeds, the
connection is added to that room's pendingPeers, and its index entry is
overwritten to role PEER for the joined room.  In both cases the registry
changes. -/
theorem c4_no_already_in_room_check (st : St) (s : Socket) (info : RoomInfo)
    (code : String) (now : Nat) (code2 name : String) (room : Room)
    (hidx : lookupA s.id st.socketToRoom = some info)
    (hroom : lookupA code2 st.rooms = some room) :
    (createRoom st s code now).1 = Res.createOk code ∧
    lookupA s.id (createRoom st s code now).2.1.socketToRoom =
      some ⟨code, true, none⟩ ∧
    (joinRoom st s code2 name).1 = Res.joinOk s.id room.hostSocket.connected ∧
    lookupA s.id (joinRoom st s code2 name).2.1.socketToRoom =
      some ⟨code2, false, some s.id⟩ ∧
    (∃ room2, lookupA code2 (joinRoom st s code2 name).2.1.rooms =
        some room2 ∧
      lookupA s.id room2.pendingPeers = some ⟨s, name⟩) := by
  have hclear := hidx
  refine ⟨by simp [createRoom], ?_, by simp [joinRoom, hroom], ?_, ?_⟩
  · simp [createRoom, lookupA_setA_self]
  · simp [joinRoom, hroom, lookupA_setA_self]
  · refine ⟨{ room with
      pendingPeers := setA s.id ⟨s, name⟩ room.pendingPeers }, ?_, ?_⟩
    · simp [joinRoom, hroom, lookupA_setA_self]
    · exact lookupA_setA_self s.id _ room.pendingPeers

/-- C4 witness: the amended theorem instantiated on the fixture state where
the host h is already indexed. -/
theorem c4_no_already_in_room_check_witness :
    (createRoom stW sockH "ddd" 5).1 = Res.createOk "ddd" ∧
    lookupA "h" (joinRoom stW sockH "abc" "X").2.1.socketToRoom =
      some ⟨"abc", false, some "h"⟩ := by
  have h := c4_no_already_in_room_check stW sockH ⟨"abc", true, none⟩
    "ddd" 5 "abc" "X" roomW (by decide) (by decide)
  exact ⟨h.1, h.2.2.2.1⟩

/-- C8: denying a pending peer removes it from pendingPeers without adding
it to approvedPeers, emits exactly a peer-denied event to the peer followed
by leaving the room channel, deletes the peer's connection-index entry, and
returns success with the denied flag; after that, a signal call by the
denied peer returns the not-in-a-room error and emits nothing. -/
theorem c8_deny_pending_peer (st : St) (hostS : Socket) (peerId : String)
    (info : RoomInfo) (room : Room) (pend : PeerEntry)
    (hidx : lookupA hostS.id st.socketToRoom = some info)
    (hhost : info.isHost = true)
    (hroom : lookupA info.code st.rooms = some room)
    (hpend : lookupA peerId room.pendingPeers = some pend)
    (hwf : pend.socket.id = peerId)
    (hnap : lookupA peerId room.approvedPeers = none) :
    (approvePeer st hostS peerId false).1 = Res.approveOk true ∧
    (∃ room2,
      lookupA info.code (approvePeer st hostS peerId false).2.1.rooms =
        some room2 ∧
      lookupA peerId room2.pendingPeers = none ∧
      lookupA peerId room2.approvedPeers = none) ∧
    (approvePeer st hostS peerId false).2.2 =
      [Effect.emit peerId EvPayload.peerDenied,
       Effect.chanLeave peerId info.code] ∧
    lookupA peerId (approvePeer st hostS peerId false).2.1.socketToRoom =
      none ∧
    (∀ (toId payload : String) (s2 : Socket), s2.id = peerId →
      (signal (approvePeer st hostS peerId false).2.1 s2 toId payload).1 =
        Res.resError "Not in a room" ∧
      (signal (approvePeer st hostS peerId false).2.1 s2 toId payload).2.2 =
        []) := by
  have happ : approvePeer st hostS peerId false =
      (Res.approveOk true,
       { st with
         rooms := setA info.code
           { room with pendingPeers := delA peerId room.pendingPeers }
           st.rooms,
         socketToRoom := delA pend.socket.id st.socketToRoom },
       [Effect.emit pend.socket.id EvPayload.peerDenied,
        Effect.chanLeave pend.socket.id info.code]) := by
    simp [approvePeer, hidx, hhost, hroom, hpend]
  have hidxgone : lookupA peerId
      (approvePeer st hostS peerId false).2.1.socketToRoom = none := by
    rw [happ]
    simp only []
    rw [hwf]
    exact lookupA_delA_self peerId st.socketToRoom
  refine ⟨by rw [happ], ?_, by rw [happ, hwf], hidxgone, ?_⟩
  · refine ⟨{ room with pendingPeers := delA peerId room.pendingPeers },
      ?_, ?_, hnap⟩
    · rw [happ]
      exact lookupA_setA_self info.code _ st.rooms
    · exact lookupA_delA_self peerId room.pendingPeers
  · intro toId payload s2 hs2
    have hnone : lookupA s2.id
        (approvePeer st hostS peerId false).2.1.socketToRoom = none := by
      rw [hs2]; exact hidxgone
    constructor
    · simp [signal, hnone]
    · simp [signal, hnone]

/-- C8 witness: in the fixture state the host denies pending peer q; the
call returns the denied flag and a subsequent signal by q is refused as not
in a room. -/
theorem c8_deny_pending_peer_witness :
    (approvePeer stW sockH "q" false).1 = Res.approveOk true ∧
    (signal (approvePeer stW sockH "q" false).2.1 sockQ "h" "blob").1 =
      Res.resError "Not in a room" := by
  have h := c8_deny_pending_peer stW sockH "q" ⟨"abc", true, none⟩ roomW
    entryQ (by decide) (by decide) (by decide) (by decide) (by decide)
    (by decide)
  exact ⟨h.1, (h.2.2.2.2 "h" "blob" sockQ (by decide)).1⟩

/-- C7: a host rejoin on an existing room replaces exactly the hostSocket
and hostId fields of the room (pendingPeers, approvedPeers, code and
createdAt are untouched), returns success with the list of approved peer
ids and names, and emits a host-reconnected event carrying the new host id
exactly once to every approved peer and never to a pending peer. -/
theorem c7_rejoin_preserves_approved (st : St) (s : Socket)
    (code name : String) (room : Room)
    (hroom : lookupA code st.rooms = some room)
    (hnd : (room.approvedPeers.map Prod.fst).Nodup)
    (hwf : ∀ kv ∈ room.approvedPeers, kv.2.socket.id = kv.1)
    (hdisj : ∀ k, (lookupA k room.pendingPeers).isSome = true →
      lookupA k room.approvedPeers = none) :
    (rejoinRoom st s code true name).1 =
      Res.rejoinOk code (room.approvedPeers.map fun kv => (kv.1, kv.2.name)) ∧
    lookupA code (rejoinRoom st s code true name).2.1.rooms =
      some { room with hostSocket := s, hostId := s.id } ∧
    (∀ k, (lookupA k room.approvedPeers).isSome = true →
      countEff k (EvPayload.hostReconnected s.id)
        (rejoinRoom st s code true name).2.2 = 1) ∧
    (∀ k, (lookupA k room.pendingPeers).isSome = true →
      countEff k (EvPayload.hostReconnected s.id)
        (rejoinRoom st s code true name).2.2 = 0) := by
  have hrj : rejoinRoom st s code true name =
      (Res.rejoinOk code
        (room.approvedPeers.map fun kv => (kv.1, kv.2.name)),
       { st with
         rooms := setA code { room with hostSocket := s, hostId := s.id }
           st.rooms,
         socketToRoom := setA s.id ⟨code, true, none⟩ st.socketToRoom },
       Effect.chanJoin s.id code ::
         room.approvedPeers.map
           (fun kv => Effect.emit kv.2.socket.id
             (EvPayload.hostReconnected s.id))) := by
    simp [rejoinRoom, hroom]
  have hcount : ∀ k, countEff k (EvPayload.hostReconnected s.id)
      (rejoinRoom st s code true name).2.2 =
      if (lookupA k room.approvedPeers).isSome then 1 else 0 := by
    intro k
    rw [hrj]
    show (if Effect.chanJoin s.id code =
        Effect.emit k (EvPayload.hostReconnected s.id) then 1 else 0) +
      countEff k (EvPayload.hostReconnected s.id) _ =
      if (lookupA k room.approvedPeers).isSome then 1 else 0
    rw [if_neg (by simp)]
    rw [countEff_map_emit _ _ hnd hwf k]
    omega
  refine ⟨by rw [hrj], ?_, ?_, ?_⟩
  · rw [hrj]
    exact lookupA_setA_self code _ st.rooms
  · intro k hk
    rw [hcount k, if_pos hk]
  · intro k hk
    rw [hcount k, if_neg (by simp [hdisj k hk])]

/-- C7 witness: rejoining the fixture room as host h2 keeps the approved
map, installs h2, and notifies the approved peer p exactly once and the
pending peer q not at all. -/
theorem c7_rejoin_preserves_approved_witness :
    (rejoinRoom stW sockH2 "abc" true "H").1 =
      Res.rejoinOk "abc" [("p", "Alice")] ∧
    lookupA "abc" (rejoinRoom stW sockH2 "abc" true "H").2.1.rooms =
      some ⟨"abc", sockH2, "h2", [("q", entryQ)], [("p", entryP)], 0⟩ ∧
    countEff "p" (EvPayload.hostReconnected "h2")
      (rejoinRoom stW sockH2 "abc" true "H").2.2 = 1 ∧
    countEff "q" (EvPayload.hostReconnected "h2")
      (rejoinRoom stW sockH2 "abc" true "H").2.2 = 0 := by
  have hdisjW : ∀ k, (lookupA k roomW.pendingPeers).isSome = true →
      lookupA k roomW.approvedPeers = none := by
    intro k hk
    have hmem := lookupA_isSome_mem hk
    simp [roomW] at hmem
    subst hmem
    decide
  have h := c7_rejoin_preserves_approved stW sockH2 "abc" "H" roomW
    (by decide) (by decide) (by decide) hdisjW
  exact ⟨h.1, h.2.1, h.2.2.1 "p" (by decide), h.2.2.2 "q" (by decide)⟩

/-- C10: a host rejoin installs the new connection as host and indexes it,
but leaves the previous host connection's index entry in place with role
HOST for the same code; a later handleDisconnect of the old host connection
therefore takes the HOST branch and deletes the room even though the
freshly installed host socket is live. -/
theorem c10_stale_host_entry (st : St) (oldS newS : Socket)
    (code name : String) (info : RoomInfo) (room : Room)
    (hidx : lookupA oldS.id st.socketToRoom = some info)
    (hcode : info.code = code) (hhost : info.isHost = true)
    (hroom : lookupA code st.rooms = some room)
    (hne : oldS.id ≠ newS.id) (hlive : newS.connected = true) :
    lookupA oldS.id (rejoinRoom st newS code true name).2.1.socketToRoom =
      some info ∧
    lookupA newS.id (rejoinRoom st newS code true name).2.1.socketToRoom =
      some ⟨code, true, none⟩ ∧
    lookupA code (rejoinRoom st newS code true name).2.1.rooms =
      some { room with hostSocket := newS, hostId := newS.id } ∧
    newS.connected = true ∧
    lookupA code
      (handleDisconnect (rejoinRoom st newS code true name).2.1 oldS).1.rooms
      = none := by
  have hrj : rejoinRoom st newS code true name =
      (Res.rejoinOk code
        (room.approvedPeers.map fun kv => (kv.1, kv.2.name)),
       { st with
         rooms :=
           setA code { room with hostSocket := newS, hostId := newS.id }
             st.rooms,
         socketToRoom := setA newS.id ⟨code, true, none⟩ st.socketToRoom },
       Effect.chanJoin newS.id code ::
         room.approvedPeers.map
           (fun kv => Effect.emit kv.2.socket.id
             (EvPayload.hostReconnected newS.id))) := by
    simp [rejoinRoom, hroom]
  have h1 : lookupA oldS.id
      (rejoinRoom st newS code true name).2.1.socketToRoom = some info := by
    rw [hrj]
    show lookupA oldS.id (setA newS.id ⟨code, true, none⟩ st.socketToRoom)
      = some info
    rw [lookupA_setA_ne _ _ hne]
    exact hidx
  have h3 : lookupA code (rejoinRoom st newS code true name).2.1.rooms =
      some { room with hostSocket := newS, hostId := newS.id } := by
    rw [hrj]
    exact lookupA_setA_self code _ st.rooms
  refine ⟨h1, ?_, h3, hlive, ?_⟩
  · rw [hrj]
    exact lookupA_setA_self newS.id _ st.socketToRoom
  · have h3c : lookupA info.code
        (rejoinRoom st newS code true name).2.1.rooms =
        some { room with hostSocket := newS, hostId := newS.id } := by
      rw [hcode]; exact h3
    simp only [handleDisconnect, h1, h3c, hhost, if_true]
    rw [hrj]
    show lookupA code (delA info.code
      (setA code { room with hostSocket := newS, hostId := newS.id }
        st.rooms)) = none
    rw [hcode]
    exact lookupA_delA_self code _

/-- C10 witness: on the fixture state, after h2 rejoins room abc as host,
the stale index entry of h remains with role HOST, and a disconnect of h
deletes the room. -/
theorem c10_stale_host_entry_witness :
    lookupA "h" (rejoinRoom stW sockH2 "abc" true "H").2.1.socketToRoom =
      some ⟨"abc", true, none⟩ ∧
    lookupA "abc"
      (handleDisconnect (rejoinRoom stW sockH2 "abc" true "H").2.1
        sockH).1.rooms = none := by
  have h := c10_stale_host_entry stW sockH sockH2 "abc" "H"
    ⟨"abc", true, none⟩ roomW (by decide) (by decide) (by decide)
    (by decide) (by decide) (by decide)
  exact ⟨h.1, h.2.2.2.2⟩

theorem lookupA_foldl_delA {α β : Type} (l : List (String × β))
    (m : List (String × α)) (j : String) :
    lookupA j (l.foldl (fun acc kv => delA kv.1 acc) m) =
      if j ∈ l.map Prod.fst then none else lookupA j m := by
  induction l generalizing m with
  | nil => simp
  | cons kv t ih =>
    rw [List.foldl_cons, ih]
    by_cases hj : j ∈ t.map Prod.fst
    · simp [hj]
    · by_cases hk : j = kv.1
      · simp [hj, hk, lookupA_delA_self]
      · simp [hj, hk, lookupA_delA_ne _ hk]

/-- C3: when the current host connection of a room disconnects, the full
disconnect handling (per-IP counter update of index.js followed by
handleDisconnect of rooms.js) removes the room's code from the rooms map,
emits host-disconnected exactly once to every peer that was pending or
approved and deletes that peer's connection-index entry, and decrements the
room count of the host IP by exactly one, deleting the key when the count
reaches zero. -/
theorem c3_host_disconnect_cleanup (st : St) (s : Socket) (ip : String)
    (info : RoomInfo) (room : Room) (n : Nat)
    (hidx : lookupA s.id st.socketToRoom = some info)
    (hhost : info.isHost = true)
    (hroom : lookupA info.code st.rooms = some room)
    (_hhostid : room.hostId = s.id)
    (hndA : (room.approvedPeers.map Prod.fst).Nodup)
    (hndP : (room.pendingPeers.map Prod.fst).Nodup)
    (hwfA : ∀ kv ∈ room.approvedPeers, kv.2.socket.id = kv.1)
    (hwfP : ∀ kv ∈ room.pendingPeers, kv.2.socket.id = kv.1)
    (hdisj : ∀ k, (lookupA k room.pendingPeers).isSome = true →
      lookupA k room.approvedPeers = none)
    (hip : lookupA ip st.roomsPerIp = some n) (hn : 1 ≤ n) :
    lookupA info.code (onDisconnect st s ip).1.rooms = none ∧
    (∀ k, ((lookupA k room.pendingPeers).isSome = true ∨
        (lookupA k room.approvedPeers).isSome = true) →
      countEff k EvPayload.hostDisconnected (onDisconnect st s ip).2 = 1 ∧
      lookupA k (onDisconnect st s ip).1.socketToRoom = none) ∧
    (n = 1 → lookupA ip (onDisconnect st s ip).1.roomsPerIp = none) ∧
    (2 ≤ n → lookupA ip (onDisconnect st s ip).1.roomsPerIp =
      some (n - 1)) := by
  have hod : onDisconnect st s ip = handleDisconnect
      (if n ≤ 1 then { st with roomsPerIp := delA ip st.roomsPerIp }
       else { st with roomsPerIp := setA ip (n - 1) st.roomsPerIp }) s := by
    simp [onDisconnect, hidx, hhost, hip]
  have hbody : ∀ st1 : St, st1.rooms = st.rooms →
      st1.socketToRoom = st.socketToRoom →
      handleDisconnect st1 s =
      ({ st1 with
         rooms := delA info.code st.rooms,
         socketToRoom := delA s.id
           (room.pendingPeers.foldl (fun m kv => delA kv.1 m)
             (room.approvedPeers.foldl (fun m kv => delA kv.1 m)
               st.socketToRoom)) },
       room.approvedPeers.map
         (fun kv => Effect.emit kv.2.socket.id EvPayload.hostDisconnected)
       ++ room.pendingPeers.map
         (fun kv => Effect.emit kv.2.socket.id EvPayload.hostDisconnected))
      := by
    intro st1 hr hs2
    simp [handleDisconnect, hr, hs2, hidx, hroom, hhost]
  have hmain : ∀ st1 : St, st1.rooms = st.rooms →
      st1.socketToRoom = st.socketToRoom →
      lookupA info.code (handleDisconnect st1 s).1.rooms = none ∧
      (∀ k, ((lookupA k room.pendingPeers).isSome = true ∨
          (lookupA k room.approvedPeers).isSome = true) →
        countEff k EvPayload.hostDisconnected (handleDisconnect st1 s).2 = 1 ∧
        lookupA k (handleDisconnect st1 s).1.socketToRoom = none) := by
    intro st1 hr hs2
    rw [hbody st1 hr hs2]
    refine ⟨lookupA_delA_self info.code st.rooms, ?_⟩
    intro k hk
    constructor
    · rw [countEff_append, countEff_map_emit _ _ hndA hwfA k,
        countEff_map_emit _ _ hndP hwfP k]
      rcases hk with hkP | hkA
      · rw [hdisj k hkP]
        simp [hkP]
      · have hnP : lookupA k room.pendingPeers = none := by
          cases hlp : lookupA k room.pendingPeers with
          | none => rfl
          | some v =>
            have := hdisj k (by simp [hlp])
            rw [this] at hkA
            simp at hkA
        simp [hkA, hnP]
    · show lookupA k (delA s.id _) = none
      by_cases hks : k = s.id
      · rw [hks]
        exact lookupA_delA_self s.id _
      · rw [lookupA_delA_ne _ hks, lookupA_foldl_delA, lookupA_foldl_delA]
        rcases hk with hkP | hkA
        · simp [lookupA_isSome_mem hkP]
        · by_cases hP : k ∈ room.pendingPeers.map Prod.fst
          · simp [hP]
          · simp [hP, lookupA_isSome_mem hkA]
  by_cases hc : n ≤ 1
  · have hn1 : n = 1 := Nat.le_antisymm hc hn
    rw [hod, if_pos hc]
    have h := hmain { st with roomsPerIp := delA ip st.roomsPerIp } rfl rfl
    refine ⟨h.1, h.2, fun _ => ?_, fun h2 => absurd hn1 (by omega)⟩
    rw [hbody { st with roomsPerIp := delA ip st.roomsPerIp } rfl rfl]
    exact lookupA_delA_self ip st.roomsPerIp
  · rw [hod, if_neg hc]
    have h := hmain { st with roomsPerIp := setA ip (n - 1) st.roomsPerIp }
      rfl rfl
    refine ⟨h.1, h.2, fun h1 => absurd h1 (by omega), fun _ => ?_⟩
    rw [hbody { st with roomsPerIp := setA ip (n - 1) st.roomsPerIp } rfl rfl]
    exact lookupA_setA_self ip (n - 1) st.roomsPerIp

/-- C3 witness: in the fixture state, disconnecting the host h destroys room
abc, the approved peer p and the pending peer q each receive one
host-disconnected emit and lose their index entries, and the counter for
ip1 drops from one to absent. -/
theorem c3_host_disconnect_cleanup_witness :
    lookupA "abc" (onDisconnect stW sockH "ip1").1.rooms = none ∧
    countEff "p" EvPayload.hostDisconnected (onDisconnect stW sockH "ip1").2
      = 1 ∧
    countEff "q" EvPayload.hostDisconnected (onDisconnect stW sockH "ip1").2
      = 1 ∧
    lookupA "p" (onDisconnect stW sockH "ip1").1.socketToRoom = none ∧
    lookupA "q" (onDisconnect stW sockH "ip1").1.socketToRoom = none ∧
    lookupA "ip1" (onDisconnect stW sockH "ip1").1.roomsPerIp = none := by
  have hdisjW : ∀ k, (lookupA k roomW.pendingPeers).isSome = true →
      lookupA k roomW.approvedPeers = none := by
    intro k hk
    have hmem := lookupA_isSome_mem hk
    simp [roomW] at hmem
    subst hmem
    decide
  have h := c3_host_disconnect_cleanup stW sockH "ip1" ⟨"abc", true, none⟩
    roomW 1 (by decide) (by decide) (by decide) (by decide) (by decide)
    (by decide) (by decide) (by decide) hdisjW (by decide) (by decide)
  have hp := h.2.1 "p" (Or.inr (by decide))
  have hq := h.2.1 "q" (Or.inl (by decide))
  exact ⟨h.1, hp.1, hq.1, hp.2, hq.2, h.2.2.1 rfl⟩

theorem lookupA_setA {α : Type} (k j : String) (v : α)
    (m : List (String × α)) :
    lookupA j (setA k v m) = if j = k then some v else lookupA j m := by
  by_cases h : j = k
  · rw [if_pos h, h]; exact lookupA_setA_self k v m
  · rw [if_neg h]; exact lookupA_setA_ne v m h

theorem lookupA_delA {α : Type} (k j : String) (m : List (String × α)) :
    lookupA j (delA k m) = if j = k then none else lookupA j m := by
  by_cases h : j = k
  · rw [if_pos h, h]; exact lookupA_delA_self k m
  · rw [if_neg h]; exact lookupA_delA_ne m h

/-! ## The membership-disjointness invariant (claim C2) -/

/-- RoomOK room: the keys of pendingPeers and approvedPeers are disjoint and
hostId is a key of neither. -/
def RoomOK (room : Room) : Prop :=
  (∀ k, (lookupA k room.pendingPeers).isSome = true →
    lookupA k room.approvedPeers = none) ∧
  lookupA room.hostId room.pendingPeers = none ∧
  lookupA room.hostId room.approvedPeers = none

/-- WfDisjoint st: every room of the registry satisfies RoomOK. -/
def WfDisjoint (st : St) : Prop :=
  ∀ code room, lookupA code st.rooms = some room → RoomOK room

/-- States reachable from the empty registry by arbitrary registry
operations; createRoom draws a code not already in use, exactly as the
generate-until-unused loop does, and all other operations are
unconstrained. -/
inductive Reach : St → Prop where
  | init : Reach emptySt
  | stepCreate {st : St} (s : Socket) (code : String) (now : Nat) :
      Reach st → lookupA code st.rooms = none →
      Reach (createRoom st s code now).2.1
  | stepJoin {st : St} (s : Socket) (code name : String) :
      Reach st → Reach (joinRoom st s code name).2.1
  | stepApprove {st : St} (s : Socket) (pid : String) (b : Bool) :
      Reach st → Reach (approvePeer st s pid b).2.1
  | stepSignal {st : St} (s : Socket) (toId payload : String) :
      Reach st → Reach (signal st s toId payload).2.1
  | stepRejoin {st : St} (s : Socket) (code : String) (b : Bool)
      (name : String) : Reach st → Reach (rejoinRoom st s code b name).2.1
  | stepDisconnect {st : St} (s : Socket) :
      Reach st → Reach (handleDisconnect st s).1

/-- States reachable when, additionally, joinRoom (and rejoinRoom as peer)
into an existing room is only called by a connection that is neither that
room's host nor one of its approved peers, and rejoinRoom as host is only
called by a connection that is in neither membership map of that room. -/
inductive ReachS : St → Prop where
  | init : ReachS emptySt
  | stepCreate {st : St} (s : Socket) (code : String) (now : Nat) :
      ReachS st → lookupA code st.rooms = none →
      ReachS (createRoom st s code now).2.1
  | stepJoin {st : St} (s : Socket) (code name : String) :
      ReachS st →
      (∀ room, lookupA code st.rooms = some room →
        s.id ≠ room.hostId ∧ lookupA s.id room.approvedPeers = none) →
      ReachS (joinRoom st s code name).2.1
  | stepApprove {st : St} (s : Socket) (pid : String) (b : Bool) :
      ReachS st → ReachS (approvePeer st s pid b).2.1
  | stepSignal {st : St} (s : Socket) (toId payload : String) :
      ReachS st → ReachS (signal st s toId payload).2.1
  | stepRejoinHost {st : St} (s : Socket) (code name : String) :
      ReachS st →
      (∀ room, lookupA code st.rooms = some room →
        lookupA s.id room.pendingPeers = none ∧
        lookupA s.id room.approvedPeers = none) →
      ReachS (rejoinRoom st s code true name).2.1
  | stepRejoinPeer {st : St} (s : Socket) (code name : String) :
      ReachS st →
      (∀ room, lookupA code st.rooms = some room →
        s.id ≠ room.hostId ∧ lookupA s.id room.approvedPeers = none) →
      ReachS (rejoinRoom st s code false name).2.1
  | stepDisconnect {st : St} (s : Socket) :
      ReachS st → ReachS (handleDisconnect st s).1

theorem wf_createRoom {st : St} (s : Socket) (code : String) (now : Nat)
    (h : WfDisjoint st) : WfDisjoint (createRoom st s code now).2.1 := by
  intro c rm hc
  have hc2 : lookupA c (setA code (⟨code, s, s.id, [], [], now⟩ : Room)
      st.rooms) = some rm := hc
  rw [lookupA_setA] at hc2
  by_cases hcc : c = code
  · rw [if_pos hcc] at hc2
    obtain rfl : (⟨code, s, s.id, [], [], now⟩ : Room) = rm :=
      Option.some.inj hc2
    exact ⟨fun k hk => by simp [lookupA] at hk, by simp [lookupA],
      by simp [lookupA]⟩
  · rw [if_neg hcc] at hc2
    exact h c rm hc2

theorem wf_joinRoom {st : St} (s : Socket) (code name : String)
    (h : WfDisjoint st)
    (hcond : ∀ room, lookupA code st.rooms = some room →
      s.id ≠ room.hostId ∧ lookupA s.id room.approvedPeers = none) :
    WfDisjoint (joinRoom st s code name).2.1 := by
  cases hr : lookupA code st.rooms with
  | none =>
    have hst : (joinRoom st s code name).2.1 = st := by
      simp [joinRoom, hr]
    rw [hst]; exact h
  | some room =>
    obtain ⟨hne, hnap⟩ := hcond room hr
    obtain ⟨hd, hhp, hha⟩ := h code room hr
    have hst : (joinRoom st s code name).2.1 =
        { st with
          rooms :=
            setA code
              { room with
                pendingPeers := setA s.id ⟨s, name⟩ room.pendingPeers }
              st.rooms,
          socketToRoom :=
            setA s.id ⟨code, false, some s.id⟩ st.socketToRoom } := by
      simp [joinRoom, hr]
    rw [hst]
    intro c rm hc
    have hc2 : lookupA c (setA code
        { room with pendingPeers := setA s.id ⟨s, name⟩ room.pendingPeers }
        st.rooms) = some rm := hc
    rw [lookupA_setA] at hc2
    by_cases hcc : c = code
    · rw [if_pos hcc] at hc2
      obtain rfl := Option.some.inj hc2
      refine ⟨?_, ?_, hha⟩
      · intro k hk
        have hk2 : (lookupA k (setA s.id (⟨s, name⟩ : PeerEntry)
            room.pendingPeers)).isSome = true := hk
        rw [lookupA_setA] at hk2
        by_cases hks : k = s.id
        · rw [hks]; exact hnap
        · rw [if_neg hks] at hk2
          exact hd k hk2
      · show lookupA room.hostId (setA s.id (⟨s, name⟩ : PeerEntry)
          room.pendingPeers) = none
        rw [lookupA_setA, if_neg (fun hh => hne hh.symm)]
        exact hhp
    · rw [if_neg hcc] at hc2
      exact h c rm hc2

theorem wf_approvePeer {st : St} (s : Socket) (pid : String) (b : Bool)
    (h : WfDisjoint st) : WfDisjoint (approvePeer st s pid b).2.1 := by
  cases hl : lookupA s.id st.socketToRoom with
  | none =>
    have hst : (approvePeer st s pid b).2.1 = st := by
      simp [approvePeer, hl]
    rw [hst]; exact h
  | some info =>
    cases hh : info.isHost with
    | false =>
      have hst : (approvePeer st s pid b).2.1 = st := by
        simp [approvePeer, hl, hh]
      rw [hst]; exact h
    | true =>
      cases hr : lookupA info.code st.rooms with
      | none =>
        have hst : (approvePeer st s pid b).2.1 = st := by
          simp [approvePeer, hl, hh, hr]
        rw [hst]; exact h
      | some room =>
        cases hp : lookupA pid room.pendingPeers with
        | none =>
          have hst : (approvePeer st s pid b).2.1 = st := by
            simp [approvePeer, hl, hh, hr, hp]
          rw [hst]; exact h
        | some pend =>
          obtain ⟨hd, hhp, hha⟩ := h info.code room hr
          have hpidhost : room.hostId ≠ pid := by
            intro he
            rw [he, hp] at hhp
            exact Option.noConfusion hhp
          cases b with
          | true =>
            have hst : (approvePeer st s pid true).2.1 =
                { st with
                  rooms :=
                    setA info.code
                      { room with
                        pendingPeers := delA pid room.pendingPeers,
                        approvedPeers :=
                          setA pid pend room.approvedPeers }
                      st.rooms } := by
              simp [approvePeer, hl, hh, hr, hp]
            rw [hst]
            intro c rm hc
            have hc2 : lookupA c (setA info.code
                { room with
                  pendingPeers := delA pid room.pendingPeers,
                  approvedPeers := setA pid pend room.approvedPeers }
                st.rooms) = some rm := hc
            rw [lookupA_setA] at hc2
            by_cases hcc : c = info.code
            · rw [if_pos hcc] at hc2
              obtain rfl := Option.some.inj hc2
              refine ⟨?_, ?_, ?_⟩
              · intro k hk
                have hk2 : (lookupA k
                    (delA pid room.pendingPeers)).isSome = true := hk
                rw [lookupA_delA] at hk2
                by_cases hkp : k = pid
                · rw [if_pos hkp] at hk2; simp at hk2
                · rw [if_neg hkp] at hk2
                  show lookupA k (setA pid pend room.approvedPeers) = none
                  rw [lookupA_setA, if_neg hkp]
                  exact hd k hk2
              · show lookupA room.hostId (delA pid room.pendingPeers) = none
                rw [lookupA_delA]
                by_cases hkp : room.hostId = pid
                · rw [if_pos hkp]
                · rw [if_neg hkp]; exact hhp
              · show lookupA room.hostId
                  (setA pid pend room.approvedPeers) = none
                rw [lookupA_setA, if_neg hpidhost]
                exact hha
            · rw [if_neg hcc] at hc2
              exact h c rm hc2
          | false =>
            have hst : (approvePeer st s pid false).2.1 =
                { st with
                  rooms := setA info.code
                    { room with
                      pendingPeers := delA pid room.pendingPeers }
                    st.rooms,
                  socketToRoom := delA pend.socket.id st.socketToRoom } := by
              simp [approvePeer, hl, hh, hr, hp]
            rw [hst]
            intro c rm hc
            have hc2 : lookupA c (setA info.code
                { room with pendingPeers := delA pid room.pendingPeers }
                st.rooms) = some rm := hc
            rw [lookupA_setA] at hc2
            by_cases hcc : c = info.code
            · rw [if_pos hcc] at hc2
              obtain rfl := Option.some.inj hc2
              refine ⟨?_, ?_, hha⟩
              · intro k hk
                have hk2 : (lookupA k
                    (delA pid room.pendingPeers)).isSome = true := hk
                rw [lookupA_delA] at hk2
                by_cases hkp : k = pid
                · rw [if_pos hkp] at hk2; simp at hk2
                · rw [if_neg hkp] at hk2
                  exact hd k hk2
              · show lookupA room.hostId (delA pid room.pendingPeers) = none
                rw [lookupA_delA]
                by_cases hkp : room.hostId = pid
                · rw [if_pos hkp]
                · rw [if_neg hkp]; exact hhp
            · rw [if_neg hcc] at hc2
              exact h c rm hc2

theorem signal_state (st : St) (s : Socket) (toId payload : String) :
    (signal st s toId payload).2.1 = st := by
  unfold signal
  split
  · rfl
  · split
    · rfl
    · split
      · split
        · rfl
        · rfl
      · rfl

theorem wf_handleDisconnect {st : St} (s : Socket) (h : WfDisjoint st) :
    WfDisjoint (handleDisconnect st s).1 := by
  cases hl : lookupA s.id st.socketToRoom with
  | none =>
    have hst : (handleDisconnect st s).1 = st := by
      simp [handleDisconnect, hl]
    rw [hst]; exact h
  | some info =>
    cases hr : lookupA info.code st.rooms with
    | none =>
      have hst : (handleDisconnect st s).1 = st := by
        simp [handleDisconnect, hl, hr]
      rw [hst]; exact h
    | some room =>
      cases hh : info.isHost with
      | true =>
        have hst : (handleDisconnect st s).1.rooms =
            delA info.code st.rooms := by
          simp [handleDisconnect, hl, hr, hh]
        intro c rm hc
        rw [hst, lookupA_delA] at hc
        by_cases hcc : c = info.code
        · rw [if_pos hcc] at hc; exact Option.noConfusion hc
        · rw [if_neg hcc] at hc
          exact h c rm hc
      | false =>
        obtain ⟨hd, hhp, hha⟩ := h info.code room hr
        have hst : (handleDisconnect st s).1 =
            { st with
              rooms := setA info.code
                { room with
                  pendingPeers := delA s.id room.pendingPeers,
                  approvedPeers := delA s.id room.approvedPeers }
                st.rooms,
              socketToRoom := delA s.id st.socketToRoom } := by
          simp [handleDisconnect, hl, hr, hh]
        rw [hst]
        intro c rm hc
        have hc2 : lookupA c (setA info.code
            { room with
              pendingPeers := delA s.id room.pendingPeers,
              approvedPeers := delA s.id room.approvedPeers }
            st.rooms) = some rm := hc
        rw [lookupA_setA] at hc2
        by_cases hcc : c = info.code
        · rw [if_pos hcc] at hc2
          obtain rfl := Option.some.inj hc2
          refine ⟨?_, ?_, ?_⟩
          · intro k hk
            have hk2 : (lookupA k (delA s.id room.pendingPeers)).isSome =
                true := hk
            rw [lookupA_delA] at hk2
            by_cases hks : k = s.id
            · rw [if_pos hks] at hk2; simp at hk2
            · rw [if_neg hks] at hk2
              show lookupA k (delA s.id room.approvedPeers) = none
              rw [lookupA_delA, if_neg hks]
              exact hd k hk2
          · show lookupA room.hostId (delA s.id room.pendingPeers) = none
            rw [lookupA_delA]
            by_cases hks : room.hostId = s.id
            · rw [if_pos hks]
            · rw [if_neg hks]; exact hhp
          · show lookupA room.hostId (delA s.id room.approvedPeers) = none
            rw [lookupA_delA]
            by_cases hks : room.hostId = s.id
            · rw [if_pos hks]
            · rw [if_neg hks]; exact hha
        · rw [if_neg hcc] at hc2
          exact h c rm hc2

theorem rejoinRoom_false_eq (st : St) (s : Socket) (code name : String) :
    rejoinRoom st s code false name = joinRoom st s code name := by
  unfold rejoinRoom joinRoom
  cases hr : lookupA code st.rooms with
  | none => rfl
  | some room => simp

theorem wf_rejoinHost {st : St} (s : Socket) (code name : String)
    (h : WfDisjoint st)
    (hcond : ∀ room, lookupA code st.rooms = some room →
      lookupA s.id room.pendingPeers = none ∧
      lookupA s.id room.approvedPeers = none) :
    WfDisjoint (rejoinRoom st s code true name).2.1 := by
  cases hr : lookupA code st.rooms with
  | none =>
    have hst : (rejoinRoom st s code true name).2.1 = st := by
      simp [rejoinRoom, hr]
    rw [hst]; exact h
  | some room =>
    obtain ⟨hnp, hna⟩ := hcond room hr
    obtain ⟨hd, _, _⟩ := h code room hr
    have hst : (rejoinRoom st s code true name).2.1 =
        { st with
          rooms := setA code { room with hostSocket := s, hostId := s.id }
            st.rooms,
          socketToRoom := setA s.id ⟨code, true, none⟩ st.socketToRoom } := by
      simp [rejoinRoom, hr]
    rw [hst]
    intro c rm hc
    have hc2 : lookupA c (setA code
        { room with hostSocket := s, hostId := s.id } st.rooms) =
        some rm := hc
    rw [lookupA_setA] at hc2
    by_cases hcc : c = code
    · rw [if_pos hcc] at hc2
      obtain rfl := Option.some.inj hc2
      exact ⟨hd, hnp, hna⟩
    · rw [if_neg hcc] at hc2
      exact h c rm hc2

/-- C2 (amended): the disjointness invariant holds in every state reachable
from the empty registry when joinRoom and rejoinRoom respect the
side conditions of ReachS: joining an existing room is done only by a
connection that is neither its host nor approved, and rejoining as host
only by a connection in neither membership map.  Without those
side conditions the code violates the invariant (see the counterexample in
which a host joins its own room). -/
theorem c2_membership_disjoint_amended (st : St) (h : ReachS st) :
    WfDisjoint st := by
  induction h with
  | init => intro c rm hc; simp [emptySt, lookupA] at hc
  | stepCreate s code now _ _ ih => exact wf_createRoom s code now ih
  | stepJoin s code name _ hcond ih => exact wf_joinRoom s code name ih hcond
  | stepApprove s pid b _ ih => exact wf_approvePeer s pid b ih
  | stepSignal s toId payload _ ih =>
    rw [signal_state]; exact ih
  | stepRejoinHost s code name _ hcond ih =>
    exact wf_rejoinHost s code name ih hcond
  | stepRejoinPeer s code name _ hcond ih =>
    rw [rejoinRoom_false_eq]; exact wf_joinRoom s code name ih hcond
  | stepDisconnect s _ ih => exact wf_handleDisconnect s ih

/-- The state reached by a host creating a room and then joining its own
room: the host id ends up as a key of pendingPeers. -/
def stBad : St :=
  (joinRoom (createRoom emptySt sockH "abc" 0).2.1 sockH "abc" "N").2.1

/-- The room stored in stBad. -/
def roomBad : Room := ⟨"abc", sockH, "h", [("h", ⟨sockH, "N"⟩)], [], 0⟩

/-- C2 counterexample: stBad is reachable by the registry operations (a
createRoom with a fresh code followed by a joinRoom), yet its room has its
own hostId as a key of pendingPeers, refuting the claimed invariant. -/
theorem c2_membership_disjoint_counterexample :
    Reach stBad ∧ lookupA "abc" stBad.rooms = some roomBad ∧
    roomBad.hostId = "h" ∧
    lookupA "h" roomBad.pendingPeers = some ⟨sockH, "N"⟩ ∧
    ¬ WfDisjoint stBad := by
  refine ⟨?_, by decide, by decide, by decide, ?_⟩
  · exact Reach.stepJoin sockH "abc" "N"
      (Reach.stepCreate sockH "abc" 0 Reach.init (by decide))
  · intro hw
    have hcontra := (hw "abc" roomBad (by decide)).2.1
    exact absurd hcontra (by decide)

/-- The state reached by a host creating a room and a distinct peer
joining it. -/
def stGood : St :=
  (joinRoom (createRoom emptySt sockH "abc" 0).2.1 sockP "abc" "Alice").2.1

/-- The room stored in stGood. -/
def roomGood : Room := ⟨"abc", sockH, "h", [("p", ⟨sockP, "Alice"⟩)], [], 0⟩

/-- C2 witness: the amended invariant theorem applied to the concrete
two-step derivation reaching stGood shows its room keeps the host id out of
both membership maps. -/
theorem c2_membership_disjoint_amended_witness :
    lookupA "h" roomGood.pendingPeers = none ∧
    lookupA "h" roomGood.approvedPeers = none := by
  have hstep1 : ReachS (createRoom emptySt sockH "abc" 0).2.1 :=
    ReachS.stepCreate sockH "abc" 0 ReachS.init (by decide)
  have hcond : ∀ room,
      lookupA "abc" (createRoom emptySt sockH "abc" 0).2.1.rooms =
        some room →
      sockP.id ≠ room.hostId ∧ lookupA sockP.id room.approvedPeers = none := by
    intro room hr
    have hconc : lookupA "abc" (createRoom emptySt sockH "abc" 0).2.1.rooms =
        some (⟨"abc", sockH, "h", [], [], 0⟩ : Room) := by decide
    obtain rfl := Option.some.inj (hconc.symm.trans hr)
    exact ⟨by decide, by decide⟩
  have hw := c2_membership_disjoint_amended stGood
    (ReachS.stepJoin sockP "abc" "Alice" hstep1 hcond)
  have h := hw "abc" roomGood (by decide)
  exact ⟨h.2.1, h.2.2⟩

end PeerSignal
